import Mathlib

/-!
Shallow embedding of `scripts/sparse-parity-v1.py`: a training harness for
mixtures of sparse-parity subtasks under Zipfian task sampling.  Pure data
manipulations (batch synthesis, histogram construction, layer-list
construction, the metric-recording loop) are translated into executable Lean
functions; the random draws consumed by the script (uniform bits from
`torch.randint`, Zipfian ranks from `scipy.stats.zipfian.rvs`, subset draws
from `random.sample`) are passed in explicitly as function parameters, since
after seeding they are deterministic functions of the seed and the draw
index.  Fallible Python operations (out-of-range list indexing, `% 0`,
reading an unbound local) are modelled with `Option`/`Except`.
-/

set_option autoImplicit false

namespace SparseParity

/-! ### Batch synthesis (`get_batch`, lines 29-70) -/

/-- Task-identifier channel of one row: `x_task_code = torch.zeros((size, n_tasks))`
followed by `x_task_code[:, code] = 1` (lines 63-64) yields, for each row, the
length-`n_tasks` vector that is 1 at position `code` and 0 elsewhere. -/
def oneHot (n_tasks code : ℕ) : List ℕ :=
  (List.range n_tasks).map (fun j => if j = code then 1 else 0)

/-- Bit string of row `r` of group `i`: `torch.randint(low=0, high=2, size=(size, n))`
(line 61) produces `size` rows of `n` random bits; the random source is the
explicit parameter `bits` (group index, row index, column index). -/
def rowBits (n : ℕ) (bits : ℕ → ℕ → ℕ → ℕ) (i r : ℕ) : List ℕ :=
  (List.range n).map (bits i r)

/-- Parity label of a bit string: `y = torch.sum(x[:, S], dim=1) % 2` (line 62)
sums the bits at the positions listed in `S` and reduces mod 2. -/
def parityLabel (S x : List ℕ) : ℕ :=
  (S.map (fun p => x.getD p 0)).sum % 2

/-- Rows and labels contributed by one `(S, size, code)` group of the loop at
lines 59-69: `size` examples, each the concatenation of the one-hot task
channel and a fresh random bit string, labelled by the parity over `S`.
The `if` mirrors the `if size > 0:` guard at line 60. -/
def groupExamples (n_tasks n : ℕ) (bits : ℕ → ℕ → ℕ → ℕ) (i : ℕ)
    (S : List ℕ) (size code : ℕ) : List (List ℕ × ℕ) :=
  if 0 < size then
    (List.range size).map (fun r =>
      (oneHot n_tasks code ++ rowBits n bits i r, parityLabel S (rowBits n bits i r)))
  else []

/-- Batch synthesizer (`get_batch`, lines 56-70).  `batch_x`/`batch_y` are
allocated with `sum(sizes)` zero rows (lines 56-57) and filled from row 0
onward by iterating `zip(Ss, sizes, codes)` (line 59); rows not reached by
the fill loop keep their zeros, which the trailing `List.replicate` padding
reproduces. -/
def get_batch (n_tasks n : ℕ) (Ss : List (List ℕ)) (codes sizes : List ℕ)
    (bits : ℕ → ℕ → ℕ → ℕ) : List (List ℕ) × List ℕ :=
  let groups := Ss.zip (sizes.zip codes)
  let ex := groups.enum.flatMap (fun g =>
    groupExamples n_tasks n bits g.1 g.2.1 g.2.2.1 g.2.2.2)
  let total := sizes.sum
  (ex.map Prod.fst ++ List.replicate (total - ex.length) (List.replicate (n_tasks + n) 0),
   ex.map Prod.snd ++ List.replicate (total - ex.length) 0)

/-! ### Zipfian histogram and training-batch composition (lines 201-208) -/

/-- Keys of the `defaultdict(int)` histogram built at lines 202-205, in Python
dict order, i.e. the distinct sample values in order of first occurrence. -/
def histKeys (samples : List ℕ) : List ℕ :=
  samples.foldl (fun acc s => if s ∈ acc then acc else acc ++ [s]) []

/-- Python errors the embedded fragments can raise. -/
inductive PyError where
  | indexError
  | zeroDivision
  | nameError
  deriving DecidableEq, Repr

/-- Training-batch composition (lines 201-208): the drawn Zipfian rank samples
are reduced to `codes = list(hist.keys())`, `sizes = [hist[c] for c in codes]`,
and `batch_Ss = [Ss[c] for c in codes]`; the list indexing `Ss[c]` raises
`IndexError` when `c` is out of range, modelled by `List.get?`. -/
def trainBatchSel (Ss : List (List ℕ)) (samples : List ℕ) :
    Except PyError (List ℕ × List ℕ × List (List ℕ)) :=
  let codes := histKeys samples
  let sizes := codes.map (fun c => samples.count c)
  match codes.mapM (fun c => Ss.get? c) with
  | none => .error .indexError
  | some batch_Ss => .ok (codes, sizes, batch_Ss)

/-! ### Model construction (lines 141-161) -/

/-- Nonlinearity variants offered by the dispatch at lines 141-146. -/
inductive Activation where
  | relu
  | tanh
  | sigmoid
  deriving DecidableEq, Repr

/-- String dispatch on the activation identifier (lines 141-148):
`ReLU`/`Tanh`/`Sigmoid` resolve to the corresponding module class, any other
identifier hits `assert False` (modelled as `none`). -/
def activationOf : String → Option Activation
  | "ReLU" => some .relu
  | "Tanh" => some .tanh
  | "Sigmoid" => some .sigmoid
  | _ => none

/-- One entry of the `layers` list built at lines 151-160: an affine layer
with given input and output dimensions, or an activation module. -/
inductive Layer where
  | linear (din dout : ℕ)
  | act (a : Activation)
  deriving DecidableEq, Repr

/-- Whether a layer is an affine (`nn.Linear`) layer. -/
def Layer.isLin : Layer → Bool
  | .linear _ _ => true
  | .act _ => false

/-- Layer-list construction (lines 151-161): for each `i in range(depth)`,
the branch `i == 0` appends `Linear(n_tasks + n, width)` plus an activation,
the branch `i == depth - 1` appends `Linear(width, 2)`, and the remaining
branch appends `Linear(width, width)` plus an activation; the `i == 0` test
comes first, exactly as in the source. -/
def mkLayers (n_tasks n width depth : ℕ) (a : Activation) : List Layer :=
  (List.range depth).flatMap (fun i =>
    if i = 0 then [Layer.linear (n_tasks + n) width, Layer.act a]
    else if i = depth - 1 then [Layer.linear width 2]
    else [Layer.linear width width, Layer.act a])

/-! ### Run configuration and the prelude of `run` (lines 116-178) -/

/-- Configuration options of the core entry point, with the types the script
gives them (floats modelled as rationals). -/
structure Config where
  n_tasks : ℕ
  n : ℕ
  k : ℕ
  alpha : ℚ
  width : ℕ
  depth : ℕ
  activation : String
  steps : ℕ
  batch_size : ℕ
  lr : ℚ
  test_points : ℕ
  test_points_per_task : ℕ
  log_freq : ℕ
  deriving DecidableEq, Repr

/-- Default `log_freq` from the `cfg` block (line 104): `steps // 1000`. -/
def defaultLogFreq (steps : ℕ) : ℕ :=
  steps / 1000

/-- Defaults of the `cfg` configuration block (lines 85-105); `log_freq`
is `defaultLogFreq 25000 = 25`. -/
def defaultConfig : Config :=
  ⟨100, 50, 3, 3/2, 100, 2, "ReLU", 25000, 10000, 1/1000, 30000, 1000,
    defaultLogFreq 25000⟩

/-- Fatal conditions reachable in the prelude of `run`. -/
inductive RunError where
  | invalidActivation
  | sampleTooLarge
  deriving DecidableEq, Repr

/-- Coarse events of one invocation of `run`, in execution order. -/
inductive Event where
  | modelConstructed
  | subtaskSetCreated
  | trainingLoopEntered
  | fatal (e : RunError)
  deriving DecidableEq, Repr

/-- Event trace of the prelude of `run` (lines 141-178), in source order:
the activation dispatch (lines 141-148) runs first and `assert False` aborts
on an unrecognized identifier; the model is then constructed (lines 151-161);
the Subtask Set is then created by `random.sample(range(n), k)` (line 168),
which raises `ValueError: Sample larger than population` when `k > n`; only
after that does control reach the training loop (line 178). -/
def runTrace (cfg : Config) : List Event :=
  match activationOf cfg.activation with
  | none => [Event.fatal RunError.invalidActivation]
  | some _ =>
    Event.modelConstructed ::
      (if cfg.k ≤ cfg.n then
        [Event.subtaskSetCreated, Event.trainingLoopEntered]
      else
        [Event.fatal RunError.sampleTooLarge])

/-! ### Deterministic seeding (lines 135-139, 168, 201) -/

/-- Subtask Set construction (line 168):
`Ss = [random.sample(range(n), k) for _ in range(n_tasks)]`.  After
`random.seed(seed)` (line 138) the stdlib generator is a deterministic
function of the seed, so the value of the `i`-th `random.sample(range(n), k)`
call is `sampleSem seed i n k` for a fixed semantic function `sampleSem`. -/
def subtaskSets (sampleSem : ℕ → ℕ → ℕ → ℕ → List ℕ) (seed n k n_tasks : ℕ) :
    List (List ℕ) :=
  (List.range n_tasks).map (fun i => sampleSem seed i n k)

/-- Composition of the first training batch (lines 201-206): the multiset of
ranks drawn by the `callIdx`-th `scipy.stats.zipfian.rvs(alpha, n_tasks, size)`
call after `np.random.seed(seed)` (line 139), together with the histogram as
(code, count) pairs in dict order.  The step-0 evaluation block consumes call
index 0 (line 181), so the first training step uses call index 1. -/
def firstStepComposition (zipfSem : ℕ → ℕ → ℚ → ℕ → ℕ → List ℕ)
    (seed callIdx : ℕ) (alpha : ℚ) (n_tasks batch_size : ℕ) :
    List ℕ × List (ℕ × ℕ) :=
  let samples := zipfSem seed callIdx alpha n_tasks batch_size
  (samples, (histKeys samples).map (fun c => (c, samples.count c)))

/-! ### Metrics Store and the training loop (lines 173-212)

The numeric values produced by forward passes are abstracted as parameters:
`evalAcc t` is the aggregate accuracy computed at the evaluation event of
step `t` (line 191), `subLoss t i`/`subAcc t i` are the per-subtask loss and
accuracy for subtask `i` at step `t` (lines 196, 198), and `trainLoss t` is
the training loss computed at step `t` (line 210).  The construction of the
evaluation and training batches themselves (lines 181-190, 201-209) is
abstracted into these values; its possible `IndexError` is modelled
separately by `trainBatchSel`. -/

/-- Metrics Store (lines 173-177): the five series; the two
`defaultdict(list)` maps are modelled as lists of `n_tasks` series, since the
evaluation block only ever accesses keys `0 .. n_tasks - 1`. -/
structure Metrics where
  log_steps : List ℕ
  accuracies : List ℚ
  losses : List ℚ
  losses_subtasks : List (List ℚ)
  accuracies_subtasks : List (List ℚ)
  deriving DecidableEq, Repr

/-- Initial Metrics Store (lines 173-177): five empty series. -/
def initMetrics (n_tasks : ℕ) : Metrics :=
  ⟨[], [], [], List.replicate n_tasks [], List.replicate n_tasks []⟩

/-- Evaluation event (lines 180-198), at step `t`, with `lossVar` the current
value of the Python local `loss` (`none` while unbound).  Line 191 appends the
aggregate accuracy; line 192 then reads `loss`, raising an unbound-local error
at the step-0 event and otherwise appending the value left over from the
previous training step; lines 193-198 append one entry per subtask series.
Nothing is appended to `log_steps`.  An error carries the Metrics Store as it
stands when the error is raised. -/
def evalEvent (n_tasks : ℕ) (evalAcc : ℕ → ℚ) (subLoss subAcc : ℕ → ℕ → ℚ)
    (t : ℕ) (lossVar : Option ℚ) (m : Metrics) : Except (PyError × Metrics) Metrics :=
  let m1 : Metrics := ⟨m.log_steps, m.accuracies ++ [evalAcc t], m.losses,
    m.losses_subtasks, m.accuracies_subtasks⟩
  match lossVar with
  | none => .error (.nameError, m1)
  | some v =>
    .ok ⟨m1.log_steps, m1.accuracies, m1.losses ++ [v],
      (List.range n_tasks).map (fun i => m1.losses_subtasks.getD i [] ++ [subLoss t i]),
      (List.range n_tasks).map (fun i => m1.accuracies_subtasks.getD i [] ++ [subAcc t i])⟩

/-- Body of one iteration of the training loop (lines 178-212) at step `t`:
line 179 evaluates `step % log_freq`, a `ZeroDivisionError` when
`log_freq = 0`; when the remainder is 0 the evaluation event runs; the
training step then assigns the local `loss` (line 210) and updates the
model.  The state is the pair (value of `loss`, Metrics Store). -/
def loopStep (log_freq n_tasks : ℕ) (evalAcc : ℕ → ℚ) (subLoss subAcc : ℕ → ℕ → ℚ)
    (trainLoss : ℕ → ℚ) (st : Option ℚ × Metrics) (t : ℕ) :
    Except (PyError × Metrics) (Option ℚ × Metrics) :=
  if log_freq = 0 then .error (.zeroDivision, st.2)
  else if t % log_freq = 0 then
    match evalEvent n_tasks evalAcc subLoss subAcc t st.1 st.2 with
    | .error e => .error e
    | .ok m => .ok (some (trainLoss t), m)
  else .ok (some (trainLoss t), st.2)

/-- Training loop (lines 178-212): `for step in tqdm(range(steps))` threads
the (`loss` local, Metrics Store) state through `loopStep`, starting from an
unbound `loss` and the empty Metrics Store. -/
def runLoop (steps log_freq n_tasks : ℕ) (evalAcc : ℕ → ℚ)
    (subLoss subAcc : ℕ → ℕ → ℚ) (trainLoss : ℕ → ℚ) :
    Except (PyError × Metrics) (Option ℚ × Metrics) :=
  (List.range steps).foldlM
    (loopStep log_freq n_tasks evalAcc subLoss subAcc trainLoss)
    (none, initMetrics n_tasks)

/-! ### Fixtures and spec-side operations used in the statements -/

/-- Flip of the bit at position `j` of a {0,1}-string, the operation the
label-correctness property quantifies over. -/
def flipAt (x : List ℕ) (j : ℕ) : List ℕ :=
  x.set j (1 - x.getD j 0)

/-- A concrete Subtask Set for `n_tasks = 4`, `n = 4`, `k = 2`. -/
def SsFour : List (List ℕ) :=
  [[0, 1], [1, 2], [2, 3], [0, 3]]

/-- A constant all-ones bit source. -/
def bitsOne : ℕ → ℕ → ℕ → ℕ :=
  fun _ _ _ => 1

/-- A configuration with `k > n` and a recognized activation. -/
def cfgKgtN : Config :=
  ⟨4, 2, 3, 3/2, 10, 2, "ReLU", 10, 8, 1/1000, 10, 5, 1⟩

/-- A configuration with an unrecognized activation identifier. -/
def cfgBadAct : Config :=
  ⟨4, 8, 3, 3/2, 10, 2, "GELU", 10, 8, 1/1000, 10, 5, 1⟩

/-! ## Theorems -/

/-- Each group of the fill loop contributes exactly `size` examples. -/
theorem length_groupExamples (n_tasks n : ℕ) (bits : ℕ → ℕ → ℕ → ℕ) (i : ℕ)
    (S : List ℕ) (size code : ℕ) :
    (groupExamples n_tasks n bits i S size code).length = size := by
  unfold groupExamples
  split
  · simp
  · simp only [List.length_nil]
    omega

/-- Length of the example list produced by iterating the enumerated groups. -/
theorem length_enumFrom_flatMap (n_tasks n : ℕ) (bits : ℕ → ℕ → ℕ → ℕ) :
    ∀ (l : List (List ℕ × ℕ × ℕ)) (s : ℕ),
      ((List.enumFrom s l).flatMap (fun g =>
        groupExamples n_tasks n bits g.1 g.2.1 g.2.2.1 g.2.2.2)).length
        = (l.map (fun p => p.2.1)).sum := by
  intro l
  induction l with
  | nil => intro s; rfl
  | cons p l ih =>
    intro s
    rw [List.enumFrom_cons, List.flatMap_cons, List.length_append, ih (s + 1)]
    simp [length_groupExamples]

/-- The per-group sizes picked up by `zip(Ss, sizes, codes)` sum to at most
the requested total. -/
theorem zip_sizes_sum_le :
    ∀ (Ss : List (List ℕ)) (sizes codes : List ℕ),
      ((Ss.zip (sizes.zip codes)).map (fun g => g.2.1)).sum ≤ sizes.sum := by
  intro Ss
  induction Ss with
  | nil => intro sizes codes; simp
  | cons S Ss ih =>
    intro sizes codes
    cases sizes with
    | nil => simp
    | cons sz sizes =>
      cases codes with
      | nil => simp
      | cons c codes =>
        simpa using Nat.add_le_add_left (ih sizes codes) sz

/-- When `sizes` is no longer than `Ss` and `codes`, the zip picks up every
requested size, so the group sizes sum to exactly the requested total. -/
theorem zip_sizes_sum_eq :
    ∀ (Ss : List (List ℕ)) (sizes codes : List ℕ),
      sizes.length ≤ Ss.length → sizes.length ≤ codes.length →
      ((Ss.zip (sizes.zip codes)).map (fun g => g.2.1)).sum = sizes.sum := by
  intro Ss
  induction Ss with
  | nil =>
    intro sizes codes h1 _
    have : sizes = [] := List.eq_nil_of_length_eq_zero (by simpa using h1)
    subst this
    simp
  | cons S Ss ih =>
    intro sizes codes h1 h2
    cases sizes with
    | nil => simp
    | cons sz sizes =>
      cases codes with
      | nil => simp at h2
      | cons c codes =>
        have := ih sizes codes (by simpa using h1) (by simpa using h2)
        simpa using this

/-- Length of the filled part of a synthesized batch. -/
theorem get_batch_filled_length (n_tasks n : ℕ) (Ss : List (List ℕ))
    (codes sizes : List ℕ) (bits : ℕ → ℕ → ℕ → ℕ) :
    ((Ss.zip (sizes.zip codes)).enum.flatMap (fun g =>
      groupExamples n_tasks n bits g.1 g.2.1 g.2.2.1 g.2.2.2)).length
      = ((Ss.zip (sizes.zip codes)).map (fun g => g.2.1)).sum := by
  exact length_enumFrom_flatMap n_tasks n bits (Ss.zip (sizes.zip codes)) 0

/-- Claim C7: for every list of (subtask, count) requests with non-negative counts,
including all-zero counts, the Batch Synthesizer returns an input tensor and
a label tensor whose row count equals the exact sum of the requested counts
(the all-zero case yields an empty batch). -/
theorem claim7_batch_size_conservation (n_tasks n : ℕ) (Ss : List (List ℕ))
    (codes sizes : List ℕ) (bits : ℕ → ℕ → ℕ → ℕ) :
    (get_batch n_tasks n Ss codes sizes bits).1.length = sizes.sum ∧
    (get_batch n_tasks n Ss codes sizes bits).2.length = sizes.sum := by
  have hle : ((Ss.zip (sizes.zip codes)).map (fun g => g.2.1)).sum ≤ sizes.sum :=
    zip_sizes_sum_le Ss sizes codes
  have hlen := get_batch_filled_length n_tasks n Ss codes sizes bits
  unfold get_batch
  constructor <;>
    simp only [List.length_append, List.length_map, List.length_replicate, hlen] <;>
    omega

/-- Claim C9: for any two runs with identical seed and identical configuration, the
constructed Subtask Sets are identical and the first training step's batch
composition (the multiset of sampled task ranks and the resulting per-task
counts) is identical: all randomness is drawn from generators seeded at lines
135-139, so these values are functions of the seed and the configuration
alone. -/
theorem claim9_determinism (sampleSem : ℕ → ℕ → ℕ → ℕ → List ℕ)
    (zipfSem : ℕ → ℕ → ℚ → ℕ → ℕ → List ℕ) (seed1 seed2 : ℕ)
    (cfg1 cfg2 : Config) (hseed : seed1 = seed2) (hcfg : cfg1 = cfg2) :
    subtaskSets sampleSem seed1 cfg1.n cfg1.k cfg1.n_tasks
      = subtaskSets sampleSem seed2 cfg2.n cfg2.k cfg2.n_tasks ∧
    firstStepComposition zipfSem seed1 1 cfg1.alpha cfg1.n_tasks cfg1.batch_size
      = firstStepComposition zipfSem seed2 1 cfg2.alpha cfg2.n_tasks cfg2.batch_size := by
  subst hseed
  subst hcfg
  exact ⟨rfl, rfl⟩

/-- Witness for C9 at a concrete seed, configuration and generator semantics. -/
theorem claim9_determinism_witness :
    subtaskSets (fun _ _ _ _ => [0]) 7 defaultConfig.n defaultConfig.k defaultConfig.n_tasks
      = subtaskSets (fun _ _ _ _ => [0]) 7 defaultConfig.n defaultConfig.k defaultConfig.n_tasks ∧
    firstStepComposition (fun _ _ _ _ _ => [1]) 7 1 defaultConfig.alpha
        defaultConfig.n_tasks defaultConfig.batch_size
      = firstStepComposition (fun _ _ _ _ _ => [1]) 7 1 defaultConfig.alpha
        defaultConfig.n_tasks defaultConfig.batch_size :=
  claim9_determinism (fun _ _ _ _ => [0]) (fun _ _ _ _ _ => [1]) 7 7
    defaultConfig defaultConfig rfl rfl

/-- Claim C10: the evaluation trigger at line 179 computes `step % log_freq` with
no guard on `log_freq`; the default `log_freq = steps // 1000` is 0 whenever
`steps < 1000`, and any run with `log_freq = 0` and at least one step fails
with a modulo-by-zero at step 0, before any training step completes and with
the Metrics Store still empty. -/
theorem claim10_log_freq_zero_divides (steps n_tasks : ℕ) (evalAcc : ℕ → ℚ)
    (subLoss subAcc : ℕ → ℕ → ℚ) (trainLoss : ℕ → ℚ)
    (h1 : steps < 1000) (h2 : 1 ≤ steps) :
    defaultLogFreq steps = 0 ∧
    ∀ log_freq : ℕ, log_freq = 0 →
      runLoop steps log_freq n_tasks evalAcc subLoss subAcc trainLoss
        = .error (.zeroDivision, initMetrics n_tasks) := by
  refine ⟨Nat.div_eq_of_lt h1, ?_⟩
  intro log_freq hlf
  subst hlf
  obtain ⟨s, rfl⟩ : ∃ s, steps = s + 1 := ⟨steps - 1, by omega⟩
  rw [runLoop, List.range_succ_eq_map, List.foldlM_cons]
  simp only [loopStep, if_pos rfl]
  rfl

/-- Witness for C10 at `steps = 1`, `n_tasks = 1`. -/
theorem claim10_log_freq_zero_divides_witness :
    defaultLogFreq 1 = 0 ∧
    runLoop 1 0 1 (fun _ => 0) (fun _ _ => 0) (fun _ _ => 0) (fun _ => 0)
      = .error (.zeroDivision, initMetrics 1) :=
  ⟨(claim10_log_freq_zero_divides 1 1 (fun _ => 0) (fun _ _ => 0) (fun _ _ => 0)
      (fun _ => 0) (by decide) (by decide)).1,
   (claim10_log_freq_zero_divides 1 1 (fun _ => 0) (fun _ _ => 0) (fun _ _ => 0)
      (fun _ => 0) (by decide) (by decide)).2 0 rfl⟩

/-- A task channel whose code is out of range is all zeros. -/
theorem oneHot_eq_replicate_of_le (n c : ℕ) (h : n ≤ c) :
    oneHot n c = List.replicate n 0 := by
  induction n with
  | zero => rfl
  | succ m ih =>
    have hm : m ≠ c := by omega
    rw [oneHot, List.range_succ, List.map_append]
    rw [show (List.range m).map (fun j => if j = c then 1 else 0) = oneHot m c from rfl]
    rw [ih (by omega), List.map_singleton, if_neg hm, ← List.replicate_succ']

/-- Explicit shape of an in-range task channel: `c` zeros, a single 1, then
`n - c - 1` zeros. -/
theorem oneHot_eq_of_lt (n c : ℕ) (h : c < n) :
    oneHot n c = List.replicate c 0 ++ 1 :: List.replicate (n - c - 1) 0 := by
  induction n with
  | zero => omega
  | succ m ih =>
    rw [oneHot, List.range_succ, List.map_append, List.map_singleton]
    rw [show (List.range m).map (fun j => if j = c then 1 else 0) = oneHot m c from rfl]
    rcases Nat.lt_or_ge c m with h1 | h1
    · have hm : m ≠ c := by omega
      rw [ih h1, if_neg hm]
      have he : m + 1 - c - 1 = (m - c - 1) + 1 := by omega
      rw [he, List.replicate_succ']
      simp
    · have hc : c = m := by omega
      subst hc
      rw [oneHot_eq_replicate_of_le c c le_rfl, if_pos rfl]
      have he : c + 1 - c - 1 = 0 := by omega
      rw [he]
      rfl

/-- The task channel has length `n_tasks`. -/
theorem length_oneHot (n c : ℕ) : (oneHot n c).length = n := by
  simp [oneHot]

/-- An in-range task channel contains exactly one 1. -/
theorem oneHot_count_one (n c : ℕ) (h : c < n) : (oneHot n c).count 1 = 1 := by
  rw [oneHot_eq_of_lt n c h]
  simp [List.count_append, List.count_replicate, List.count_cons]

/-- An in-range task channel contains exactly `n - 1` zeros. -/
theorem oneHot_count_zero (n c : ℕ) (h : c < n) : (oneHot n c).count 0 = n - 1 := by
  rw [oneHot_eq_of_lt n c h]
  simp [List.count_append, List.count_replicate, List.count_cons]
  omega

/-- Entry `j` of the task channel, for `j` in range. -/
theorem oneHot_getD (n c j : ℕ) (hj : j < n) :
    (oneHot n c).getD j 0 = if j = c then 1 else 0 := by
  have hl : j < (oneHot n c).length := by rw [length_oneHot]; exact hj
  rw [List.getD_eq_getElem _ _ hl]
  unfold oneHot
  rw [List.getElem_map]
  rw [List.getElem_range]

/-- Claim C6: for every row of every batch produced by the Batch Synthesizer with
task codes in `[0, n_tasks)` (and with every requested count actually
consumed by the fill loop), the first `n_tasks` entries of the row contain
exactly one 1 and `n_tasks - 1` zeros, and the position of that 1 equals the
subtask code that generated the row. -/
theorem claim6_one_hot_invariant (n_tasks n : ℕ) (Ss : List (List ℕ))
    (codes sizes : List ℕ) (bits : ℕ → ℕ → ℕ → ℕ)
    (h1 : sizes.length ≤ Ss.length) (h2 : sizes.length ≤ codes.length)
    (hc : ∀ c ∈ codes, c < n_tasks) :
    ∀ row ∈ (get_batch n_tasks n Ss codes sizes bits).1,
      ∃ c ∈ codes,
        row.take n_tasks = oneHot n_tasks c ∧
        (row.take n_tasks).count 1 = 1 ∧
        (row.take n_tasks).count 0 = n_tasks - 1 ∧
        (row.take n_tasks).getD c 0 = 1 ∧
        (∀ j, j ≠ c → (row.take n_tasks).getD j 0 = 0) := by
  intro row hrow
  have hsum := zip_sizes_sum_eq Ss sizes codes h1 h2
  have hlen := get_batch_filled_length n_tasks n Ss codes sizes bits
  rw [get_batch] at hrow
  simp only at hrow
  rw [hlen, hsum, Nat.sub_self, List.replicate_zero, List.append_nil] at hrow
  obtain ⟨pr, hpr, rfl⟩ := List.mem_map.mp hrow
  obtain ⟨g, hg, hprg⟩ := List.mem_flatMap.mp hpr
  obtain ⟨i, S, size, c⟩ := g
  have hcc : c ∈ codes := by
    have hmem : (S, size, c) ∈ Ss.zip (sizes.zip codes) :=
      List.snd_mem_of_mem_enum hg
    exact ((List.of_mem_zip ((List.of_mem_zip hmem).2)).2)
  have hcn : c < n_tasks := hc c hcc
  rw [groupExamples] at hprg
  split at hprg
  case isFalse => simp at hprg
  case isTrue =>
    obtain ⟨r, _, rfl⟩ := List.mem_map.mp hprg
    refine ⟨c, hcc, ?_⟩
    have htake : (oneHot n_tasks c ++ rowBits n bits i r).take n_tasks = oneHot n_tasks c :=
      List.take_left' (length_oneHot n_tasks c)
    rw [htake]
    refine ⟨rfl, oneHot_count_one n_tasks c hcn, oneHot_count_zero n_tasks c hcn, ?_, ?_⟩
    · rw [oneHot_getD n_tasks c c hcn, if_pos rfl]
    · intro j hj
      rcases Nat.lt_or_ge j n_tasks with hlt | hge
      · rw [oneHot_getD n_tasks c j hlt, if_neg hj]
      · exact List.getD_eq_default _ _ (by rw [length_oneHot]; exact hge)

/-- Witness for C6: a concrete two-task batch with a single row. -/
theorem claim6_one_hot_invariant_witness :
    ∃ c ∈ [1],
      (([0, 1, 1] : List ℕ).take 2 = oneHot 2 c ∧
        (([0, 1, 1] : List ℕ).take 2).count 1 = 1 ∧
        (([0, 1, 1] : List ℕ).take 2).count 0 = 2 - 1 ∧
        (([0, 1, 1] : List ℕ).take 2).getD c 0 = 1 ∧
        (∀ j, j ≠ c → (([0, 1, 1] : List ℕ).take 2).getD j 0 = 0)) :=
  claim6_one_hot_invariant 2 1 [[0]] [1] [1] bitsOne (by decide) (by decide)
    (by decide) [0, 1, 1] (by decide)

/-- Flipping position `j` changes exactly that entry of the bit string. -/
theorem getD_flipAt_self (x : List ℕ) (j : ℕ) (h : j < x.length) :
    (flipAt x j).getD j 0 = 1 - x.getD j 0 := by
  rw [flipAt, List.getD_eq_getElem?_getD, List.getElem?_set_self h, Option.getD_some]

/-- Flipping position `j` leaves every other entry of the bit string alone. -/
theorem getD_flipAt_ne (x : List ℕ) (j p : ℕ) (h : p ≠ j) :
    (flipAt x j).getD p 0 = x.getD p 0 := by
  rw [flipAt, List.getD_eq_getElem?_getD, List.getElem?_set_ne (Ne.symm h),
    ← List.getD_eq_getElem?_getD]

/-- Flipping a selected bit flips the parity label. -/
theorem parityLabel_flip_mem (S x : List ℕ) (j : ℕ) (hS : S.Nodup) (hj : j ∈ S)
    (hlen : j < x.length) (hbit : x.getD j 0 ≤ 1) :
    parityLabel S (flipAt x j) = 1 - parityLabel S x := by
  have hperm : S.Perm (j :: S.erase j) := List.perm_cons_erase hj
  have hnm : j ∉ S.erase j := hS.not_mem_erase
  have hsum1 : (S.map (fun p => x.getD p 0)).sum
      = x.getD j 0 + ((S.erase j).map (fun p => x.getD p 0)).sum := by
    rw [(hperm.map _).sum_eq]
    simp
  have hsame : ((S.erase j).map (fun p => (flipAt x j).getD p 0)).sum
      = ((S.erase j).map (fun p => x.getD p 0)).sum := by
    apply congrArg
    apply List.map_congr_left
    intro p hp
    exact getD_flipAt_ne x j p (fun he => hnm (he ▸ hp))
  have hsum2 : (S.map (fun p => (flipAt x j).getD p 0)).sum
      = (1 - x.getD j 0) + ((S.erase j).map (fun p => x.getD p 0)).sum := by
    rw [(hperm.map _).sum_eq, ← hsame, List.map_cons, List.sum_cons,
      getD_flipAt_self x j hlen]
  rw [parityLabel, parityLabel, hsum2, hsum1]
  omega

/-- Flipping a non-selected bit leaves the parity label unchanged. -/
theorem parityLabel_flip_not_mem (S x : List ℕ) (j : ℕ) (hj : j ∉ S) :
    parityLabel S (flipAt x j) = parityLabel S x := by
  rw [parityLabel, parityLabel]
  apply congrArg (· % 2)
  apply congrArg
  apply List.map_congr_left
  intro p hp
  exact getD_flipAt_ne x j p (fun he => hj (he ▸ hp))

/-- Claim C5: every example produced by the Batch Synthesizer carries the label
`parityLabel` of its bit-string segment over its subtask's selected
positions, i.e. the XOR (sum mod 2) of the selected bits; flipping any single
selected bit flips the label and flipping any non-selected bit leaves it
unchanged. -/
theorem claim5_label_correctness :
    (∀ (n_tasks n : ℕ) (bits : ℕ → ℕ → ℕ → ℕ) (i : ℕ) (S : List ℕ)
        (size code : ℕ) (pr : List ℕ × ℕ),
      pr ∈ groupExamples n_tasks n bits i S size code →
        pr.2 = parityLabel S (pr.1.drop n_tasks)) ∧
    (∀ (S x : List ℕ) (j : ℕ), S.Nodup → j ∈ S → j < x.length → x.getD j 0 ≤ 1 →
      parityLabel S (flipAt x j) = 1 - parityLabel S x) ∧
    (∀ (S x : List ℕ) (j : ℕ), j ∉ S → parityLabel S (flipAt x j) = parityLabel S x) := by
  refine ⟨?_, parityLabel_flip_mem, parityLabel_flip_not_mem⟩
  intro n_tasks n bits i S size code pr hpr
  rw [groupExamples] at hpr
  split at hpr
  case isFalse => simp at hpr
  case isTrue =>
    obtain ⟨r, _, rfl⟩ := List.mem_map.mp hpr
    simp only
    rw [List.drop_left' (length_oneHot n_tasks code)]

/-- Witness for C5 on a concrete subtask and bit string. -/
theorem claim5_label_correctness_witness :
    parityLabel [0, 2] (flipAt [1, 0, 1] 0) = 1 - parityLabel [0, 2] [1, 0, 1] ∧
    parityLabel [0, 2] (flipAt [1, 0, 1] 1) = parityLabel [0, 2] [1, 0, 1] ∧
    (([1, 0, 1, 1, 1], 0) : List ℕ × ℕ).2
      = parityLabel [0, 2] ((([1, 0, 1, 1, 1], 0) : List ℕ × ℕ).1.drop 2) :=
  ⟨claim5_label_correctness.2.1 [0, 2] [1, 0, 1] 0 (by decide) (by decide)
      (by decide) (by decide),
   claim5_label_correctness.2.2 [0, 2] [1, 0, 1] 1 (by decide),
   claim5_label_correctness.1 2 3 bitsOne 0 [0, 2] 1 0 ([1, 0, 1, 1, 1], 0) (by decide)⟩

/-- A flatMap whose function is constant on the list flattens to copies of
that constant block. -/
theorem flatMap_eq_flatten_replicate {α : Type} (f : ℕ → List α) (C : List α) :
    ∀ l : List ℕ, (∀ i ∈ l, f i = C) →
      l.flatMap f = (List.replicate l.length C).flatten := by
  intro l
  induction l with
  | nil => intro _; rfl
  | cons b l ih =>
    intro h
    rw [List.flatMap_cons, h b (List.mem_cons_self b l), List.length_cons,
      List.replicate_succ, List.flatten_cons,
      ih (fun i hi => h i (List.mem_cons_of_mem b hi))]

/-- Counting across flattened copies of a block multiplies the block count. -/
theorem countP_flatten_replicate {α : Type} (p : α → Bool) (C : List α) :
    ∀ m : ℕ, ((List.replicate m C).flatten).countP p = m * C.countP p := by
  intro m
  induction m with
  | zero => simp
  | succ k ih =>
    rw [List.replicate_succ, List.flatten_cons, List.countP_append, ih]
    ring

/-- Shape of the layer list for `depth = e + 2`: input layer plus activation,
`e` hidden blocks, and the final `width → 2` affine layer. -/
theorem mkLayers_eq (n_tasks n width e : ℕ) (a : Activation) :
    mkLayers n_tasks n width (e + 2) a =
      [Layer.linear (n_tasks + n) width, Layer.act a]
        ++ (List.replicate e [Layer.linear width width, Layer.act a]).flatten
        ++ [Layer.linear width 2] := by
  have hr : List.range (e + 2) = 0 :: (List.range' 1 e ++ [e + 1]) := by
    rw [List.range_eq_range']
    have h1 := List.range'_append 0 1 (e + 1) 1
    have h2 := List.range'_append 1 e 1 1
    simp only [Nat.mul_one, Nat.one_mul, Nat.zero_add] at h1 h2
    rw [show e + 2 = (e + 1) + 1 from rfl, ← h1, List.range'_one]
    rw [show e + 1 = 1 + e from by omega, ← h2, List.range'_one]
    simp [Nat.add_comm]
  rw [mkLayers, hr, List.flatMap_cons, List.flatMap_append]
  have hmid : (List.range' 1 e).flatMap (fun i =>
      if i = 0 then [Layer.linear (n_tasks + n) width, Layer.act a]
      else if i = e + 2 - 1 then [Layer.linear width 2]
      else [Layer.linear width width, Layer.act a])
      = (List.replicate e [Layer.linear width width, Layer.act a]).flatten := by
    rw [flatMap_eq_flatten_replicate _ _ (List.range' 1 e) ?_, List.length_range']
    intro i hi
    obtain ⟨k, hk, rfl⟩ := List.mem_range'.mp hi
    have h0 : 1 + 1 * k ≠ 0 := by omega
    have h1 : 1 + 1 * k ≠ e + 2 - 1 := by omega
    rw [if_neg h0, if_neg h1]
  rw [hmid]
  simp

/-- Shape of the layer list for `depth = 1`: the `i == 0` branch fires, so the
single layer maps the input to `width` and is followed by an activation. -/
theorem mkLayers_one (n_tasks n width : ℕ) (a : Activation) :
    mkLayers n_tasks n width 1 a = [Layer.linear (n_tasks + n) width, Layer.act a] := by
  rw [mkLayers, List.range_succ, List.range_zero, List.nil_append,
    List.flatMap_cons, List.flatMap_nil, List.append_nil, if_pos rfl]

/-- Counterexample to C4 as stated: at `depth = 1` (with `n_tasks = 1`,
`n = 1`, `width = 3`) the constructed stack is `Linear(2, 3)` followed by an
activation, not a single affine map to 2 logits. -/
theorem claim4_counterexample :
    mkLayers 1 1 3 1 Activation.relu
      = [Layer.linear 2 3, Layer.act Activation.relu] ∧
    mkLayers 1 1 3 1 Activation.relu ≠ [Layer.linear 2 2] := by
  decide

/-- Claim C4 amended: for every `depth ≥ 2` the Learner is a stack of exactly
`depth` affine layers with the nonlinearity between all but the last — first
layer `n_tasks + n → width`, hidden layers `width → width`, final layer
`width → 2`; `depth = 1`, however, yields the single affine map
`n_tasks + n → width` followed by an activation (the `i == 0` branch wins
over the `i == depth - 1` branch), not a map to 2 logits. -/
theorem claim4_layer_stack (n_tasks n width depth : ℕ) (a : Activation)
    (h : 2 ≤ depth) :
    mkLayers n_tasks n width depth a =
      [Layer.linear (n_tasks + n) width, Layer.act a]
        ++ (List.replicate (depth - 2) [Layer.linear width width, Layer.act a]).flatten
        ++ [Layer.linear width 2] ∧
    (mkLayers n_tasks n width depth a).countP Layer.isLin = depth ∧
    mkLayers n_tasks n width 1 a = [Layer.linear (n_tasks + n) width, Layer.act a] := by
  obtain ⟨e, rfl⟩ : ∃ e, depth = e + 2 := ⟨depth - 2, by omega⟩
  refine ⟨by simpa using mkLayers_eq n_tasks n width e a, ?_,
    mkLayers_one n_tasks n width a⟩
  rw [mkLayers_eq n_tasks n width e a, List.countP_append, List.countP_append,
    countP_flatten_replicate]
  simp [Layer.isLin, List.countP_cons]
  omega

/-- Witness for C4 amended at `depth = 3`. -/
theorem claim4_layer_stack_witness :
    mkLayers 1 2 4 3 Activation.tanh =
      [Layer.linear (1 + 2) 4, Layer.act Activation.tanh]
        ++ (List.replicate (3 - 2) [Layer.linear 4 4, Layer.act Activation.tanh]).flatten
        ++ [Layer.linear 4 2] ∧
    (mkLayers 1 2 4 3 Activation.tanh).countP Layer.isLin = 3 ∧
    mkLayers 1 2 4 1 Activation.tanh
      = [Layer.linear (1 + 2) 4, Layer.act Activation.tanh] :=
  claim4_layer_stack 1 2 4 3 Activation.tanh (by decide)

/-- Counterexample to C8 as stated: with `k = 3 > n = 2` and a recognized
activation, the run trace begins with model construction and the fatal
`k > n` condition only surfaces afterwards, at Subtask Set creation — not
before any computation. -/
theorem claim8_counterexample :
    cfgKgtN.n < cfgKgtN.k ∧
    runTrace cfgKgtN = [Event.modelConstructed, Event.fatal RunError.sampleTooLarge] ∧
    (runTrace cfgKgtN).head? ≠ some (Event.fatal RunError.sampleTooLarge) := by
  decide

/-- Claim C8 amended: an unrecognized activation identifier is detected before any
computation (the trace is the fatal event alone), while `k > n` is detected
only at Subtask Set creation — after the model has been constructed, though
still before any training step. -/
theorem claim8_error_ordering :
    (∀ cfg : Config, activationOf cfg.activation = none →
      runTrace cfg = [Event.fatal RunError.invalidActivation]) ∧
    (∀ cfg : Config, (activationOf cfg.activation).isSome → cfg.n < cfg.k →
      runTrace cfg = [Event.modelConstructed, Event.fatal RunError.sampleTooLarge]) := by
  constructor
  · intro cfg hact
    rw [runTrace, hact]
  · intro cfg hact hkn
    obtain ⟨a, ha⟩ := Option.isSome_iff_exists.mp hact
    rw [runTrace, ha, if_neg (by omega)]

/-- Witness for C8 amended at the two concrete configurations. -/
theorem claim8_error_ordering_witness :
    runTrace cfgBadAct = [Event.fatal RunError.invalidActivation] ∧
    runTrace cfgKgtN = [Event.modelConstructed, Event.fatal RunError.sampleTooLarge] :=
  ⟨claim8_error_ordering.1 cfgBadAct rfl,
   claim8_error_ordering.2 cfgKgtN rfl (by decide)⟩

/-- Claim C1 fails on the code: for the possible Zipfian draw `[1, 1, 2, 1, 4]`
over ranks `1..4` (with `n_tasks = 4`), the histogram codes are the raw
ranks `[1, 2, 4]` — not the claimed zero-based indices `rank − 1` — so code 4
lies outside `[0, 4)` and `Ss[4]` raises `IndexError`; had the claimed
`rank − 1` conversion been applied, the same draw would succeed. -/
theorem claim1_rank_used_as_index :
    (∀ s ∈ [1, 1, 2, 1, 4], 1 ≤ s ∧ s ≤ 4) ∧
    histKeys [1, 1, 2, 1, 4] = [1, 2, 4] ∧
    ¬ (∀ c ∈ histKeys [1, 1, 2, 1, 4], c < 4) ∧
    histKeys [1, 1, 2, 1, 4] ≠ [1, 2, 4].map (fun r => r - 1) ∧
    trainBatchSel SsFour [1, 1, 2, 1, 4] = .error PyError.indexError ∧
    trainBatchSel SsFour ([1, 1, 2, 1, 4].map (fun r => r - 1)) =
      .ok ([0, 1, 3], [3, 1, 1], [[0, 1], [1, 2], [0, 3]]) := by
  exact ⟨by decide, by decide, by decide, by decide, rfl, rfl⟩

/-- Claim C2 fails on the code: the aggregate-loss append at line 192 reads the
Python local `loss`, which is unbound at the step-0 evaluation event — the
run crashes there with nothing appended to `losses` — and, whenever `loss`
is bound (to the previous training step's loss `v`), the appended entry is
exactly that stale `v`: no loss is recomputed from the fresh evaluation
batch anywhere in the event. -/
theorem claim2_stale_loss_append :
    runLoop 1 1 1 (fun _ => 37) (fun _ _ => 0) (fun _ _ => 0) (fun _ => 0)
      = .error (PyError.nameError, ⟨[], [37], [], [[]], [[]]⟩) ∧
    (∀ (n_tasks : ℕ) (evalAcc : ℕ → ℚ) (subLoss subAcc : ℕ → ℕ → ℚ) (t : ℕ)
        (v : ℚ) (m : Metrics),
      evalEvent n_tasks evalAcc subLoss subAcc t (some v) m =
        .ok ⟨m.log_steps, m.accuracies ++ [evalAcc t], m.losses ++ [v],
          (List.range n_tasks).map (fun i => m.losses_subtasks.getD i [] ++ [subLoss t i]),
          (List.range n_tasks).map (fun i => m.accuracies_subtasks.getD i [] ++ [subAcc t i])⟩) := by
  refine ⟨rfl, ?_⟩
  intro n_tasks evalAcc subLoss subAcc t v m
  rfl

/-- Claim C3 fails on the code: an evaluation event leaves `log_steps` untouched in
every outcome, and the concrete run with `steps = 2`, `log_freq = 1`,
`n_tasks = 2` dies at the step-0 event with `log_steps = []` and
`accuracies = [0]` — against the claimed `(2 + 1 - 1) / 1 = 2` entries per
series and equal series lengths. -/
theorem claim3_log_steps_never_appended :
    (∀ (n_tasks : ℕ) (evalAcc : ℕ → ℚ) (subLoss subAcc : ℕ → ℕ → ℚ) (t : ℕ)
        (lossVar : Option ℚ) (m : Metrics),
      (match evalEvent n_tasks evalAcc subLoss subAcc t lossVar m with
        | .ok m2 => m2.log_steps
        | .error (_, m2) => m2.log_steps) = m.log_steps) ∧
    runLoop 2 1 2 (fun _ => 0) (fun _ _ => 0) (fun _ _ => 0) (fun _ => 0)
      = .error (PyError.nameError, ⟨[], [0], [], [[], []], [[], []]⟩) ∧
    (2 + 1 - 1) / 1 = 2 := by
  refine ⟨?_, rfl, by decide⟩
  intro n_tasks evalAcc subLoss subAcc t lossVar m
  cases lossVar <;> rfl

end SparseParity
